import Mathlib

/-
Verification of the 2048 grid engine (src/main.go).

The grid is a 4x4 matrix of Go ints, indexed grid[y][x].  We embed it as a
function from coordinates (x, y) to integers.  The four "faces" of
createBoard (src/main.go:50-111) are embedded as the four concrete lists of
coordinate lines obtained by unrolling its loops; a node chain becomes a
list of coordinates.  tilt (src/main.go:117-173), place (179-198),
changed (204-213) and the Update driver (236-268) are embedded below.
-/

namespace Game2048

/-- Coord is an (x, y) coordinate pair, as carried by a node of the
linked lists built in createBoard (src/main.go:15-18). -/
abbrev Coord : Type := Fin 4 × Fin 4

/-- Grid embeds the 4x4 value matrix board.grid (src/main.go:39); the Go
read grid[y][x] becomes an application to the coordinate (x, y). -/
abbrev Grid : Type := Coord → Int

/-- setCell embeds a single Go assignment grid[y][x] = v. -/
def setCell (g : Grid) (c : Coord) (v : Int) : Grid := Function.update g c v

/-- firstNonzero embeds the cursor-advancing loops of tilt
(src/main.go:124-126 and 134-136): walk the remaining node chain and stop
at the first cell whose grid value is non-zero. -/
def firstNonzero (g : Grid) : List Coord → Option Coord
  | [] => none
  | d :: rest => if g d ≠ 0 then some d else firstNonzero g rest

/-- mergeStep embeds the merge loop of tilt (src/main.go:121-150): advance
the cursor a to the first non-zero cell, find the first non-zero cell b
after it, and when the two values are equal zero the a cell and double the
b cell; in every case the cursor then moves one node forward (a = a.next,
which is the tail once a has been advanced to a non-zero cell). -/
def mergeStep (g : Grid) : List Coord → Grid
  | [] => g
  | c :: rest =>
    if g c = 0 then
      mergeStep g rest
    else
      match firstNonzero g rest with
      | none => g
      | some d =>
        if g c = g d then
          let ga := setCell g c 0
          mergeStep (setCell ga d (2 * ga d)) rest
        else
          mergeStep g rest

/-- shiftStep embeds one iteration of the compaction loop of tilt
(src/main.go:155-171): when the current cell is empty, swap it with the
first non-zero cell further along the chain. -/
def shiftStep (g : Grid) (c : Coord) (rest : List Coord) : Grid :=
  if g c = 0 then
    match firstNonzero g rest with
    | none => g
    | some d => setCell (setCell g c (g d)) d (g c)
  else g

/-- shiftPass embeds the compaction loop of tilt (src/main.go:154-171):
exactly three iterations (i = 0, 1, 2), each working at the next node of
the line.  Board lines always hold four nodes, so the fuel never
outruns the chain; running off the end is embedded as a no-op. -/
def shiftPass (g : Grid) : List Coord → Nat → Grid
  | _, 0 => g
  | [], _ + 1 => g
  | c :: rest, n + 1 => shiftPass (shiftStep g c rest) rest n

/-- tiltLine is the per-list body of tilt (src/main.go:119-172): the merge
loop followed by the three-iteration compaction loop. -/
def tiltLine (g : Grid) (l : List Coord) : Grid := shiftPass (mergeStep g l) l 3

/-- Face is a list of coordinate lines, as the face type of src/main.go:32
(4 linked lists of nodes). -/
abbrev Face : Type := List (List Coord)

/-- tilt embeds the tilt method (src/main.go:117-173): process the face's
lines in order. -/
def tilt (g : Grid) (f : Face) : Grid := f.foldl tiltLine g

/-- topFace unrolls the top-face construction of createBoard
(src/main.go:60-70): line i is the chain (i,0) -> (i,1) -> (i,2) -> (i,3). -/
def topFace : Face :=
  [[(0, 0), (0, 1), (0, 2), (0, 3)],
   [(1, 0), (1, 1), (1, 2), (1, 3)],
   [(2, 0), (2, 1), (2, 2), (2, 3)],
   [(3, 0), (3, 1), (3, 2), (3, 3)]]

/-- rightFace unrolls the right-face construction of createBoard
(src/main.go:72-83): line i is the chain (3,i) -> (2,i) -> (1,i) -> (0,i). -/
def rightFace : Face :=
  [[(3, 0), (2, 0), (1, 0), (0, 0)],
   [(3, 1), (2, 1), (1, 1), (0, 1)],
   [(3, 2), (2, 2), (1, 2), (0, 2)],
   [(3, 3), (2, 3), (1, 3), (0, 3)]]

/-- bottomFace unrolls the bottom-face construction of createBoard
(src/main.go:85-96): line i is the chain (i,3) -> (i,2) -> (i,1) -> (i,0). -/
def bottomFace : Face :=
  [[(0, 3), (0, 2), (0, 1), (0, 0)],
   [(1, 3), (1, 2), (1, 1), (1, 0)],
   [(2, 3), (2, 2), (2, 1), (2, 0)],
   [(3, 3), (3, 2), (3, 1), (3, 0)]]

/-- leftFace unrolls the left-face construction of createBoard
(src/main.go:98-108): line i is the chain (0,i) -> (1,i) -> (2,i) -> (3,i). -/
def leftFace : Face :=
  [[(0, 0), (1, 0), (2, 0), (3, 0)],
   [(0, 1), (1, 1), (2, 1), (3, 1)],
   [(0, 2), (1, 2), (2, 2), (3, 2)],
   [(0, 3), (1, 3), (2, 3), (3, 3)]]

/-- boardFaces collects the four faces a board carries (src/main.go:38-44),
the only faces Update ever passes to tilt (src/main.go:251-258). -/
def boardFaces : List Face := [topFace, rightFace, bottomFace, leftFace]

/-- zeroGrid is the freshly created all-zero grid of createBoard
(src/main.go:53-58). -/
def zeroGrid : Grid := fun _ => 0

/-- emptyCells embeds the option-collecting loop of place
(src/main.go:183-190): every coordinate whose value is zero, scanning rows
y = 0..3 outer and x = 0..3 inner (row-major). -/
def emptyCells (g : Grid) : List Coord :=
  (List.finRange 4).flatMap fun y =>
    ((List.finRange 4).filter fun x => decide (g (x, y) = 0)).map fun x => (x, y)

/-- place embeds the place method (src/main.go:179-198).  The random draw
rand.Intn(len(options)) is embedded by taking the draw r as a parameter
and reducing it modulo the number of options; Go's rand.Intn raises at
runtime when its argument is 0, which is embedded as the none result. -/
def place (g : Grid) (r : Nat) : Option Grid :=
  let options := emptyCells g
  if h : options.length = 0 then
    none
  else
    some (setCell g (options.get ⟨r % options.length, Nat.mod_lt r (Nat.pos_of_ne_zero h)⟩) 2)

/-- changed embeds the changed method (src/main.go:204-213): true exactly
when some cell of the current grid differs from the snapshot. -/
def changed (g prev : Grid) : Bool := decide (∃ c, g c ≠ prev c)

/-- step embeds the directional branch of Update (src/main.go:236-268):
snapshot, tilt along the chosen face, and place a new 2 only when the grid
changed; none records the run that would raise inside place. -/
def step (g : Grid) (f : Face) (r : Nat) : Option Grid :=
  let g2 := tilt g f
  if changed g2 g then place g2 r else some g2

/-- createModel embeds createModel (src/main.go:223-230): start from the
all-zero board and place two 2s, with the two random draws as parameters. -/
def createModel (r1 r2 : Nat) : Option Grid :=
  (place zeroGrid r1).bind fun g1 => place g1 r2

/-- Reach holds of every grid the running program can exhibit: the two
initial placements of createModel followed by any sequence of Update
steps along the four board faces. -/
inductive Reach : Grid → Prop where
  | init (r1 r2 : Nat) (g1 g2 : Grid)
      (h1 : place zeroGrid r1 = some g1) (h2 : place g1 r2 = some g2) :
      Reach g2
  | move (g g2 : Grid) (f : Face) (r : Nat)
      (hf : f ∈ boardFaces) (hg : Reach g) (h : step g f r = some g2) :
      Reach g2

/-- mkGrid builds a grid from row-major literal rows, for concrete test
boards; mkGrid rows (x, y) is row y, entry x. -/
def mkGrid (rows : List (List Int)) : Grid :=
  fun c => (rows.getD c.2.val []).getD c.1.val 0

/-- gridSum is the sum of all 16 cell values of a grid. -/
def gridSum (g : Grid) : Int := ∑ c : Coord, g c

/-- bump increments a per-cell event counter at one coordinate. -/
def bump (f : Coord → Nat) (c : Coord) : Coord → Nat := Function.update f c (f c + 1)

/-- mergeStepC is mergeStep instrumented with two per-cell event counters:
zc counts how often a cell is zeroed as the a cursor of a merge
(src/main.go:146) and dc how often it is doubled as the b cursor
(src/main.go:147).  The grid component follows mergeStep exactly. -/
def mergeStepC (g : Grid) (zc dc : Coord → Nat) :
    List Coord → Grid × (Coord → Nat) × (Coord → Nat)
  | [] => (g, zc, dc)
  | c :: rest =>
    if g c = 0 then
      mergeStepC g zc dc rest
    else
      match firstNonzero g rest with
      | none => (g, zc, dc)
      | some d =>
        if g c = g d then
          let ga := setCell g c 0
          mergeStepC (setCell ga d (2 * ga d)) (bump zc c) (bump dc d) rest
        else
          mergeStepC g zc dc rest

/-- CState is a grid together with the two merge-event counters. -/
abbrev CState : Type := Grid × (Coord → Nat) × (Coord → Nat)

/-- tiltLineC is tiltLine instrumented with the merge-event counters; the
compaction loop performs no merges so it leaves the counters unchanged. -/
def tiltLineC (s : CState) (l : List Coord) : CState :=
  let m := mergeStepC s.1 s.2.1 s.2.2 l
  (shiftPass m.1 l 3, m.2.1, m.2.2)

/-- tiltC is tilt instrumented with the merge-event counters. -/
def tiltC (s : CState) (f : Face) : CState := f.foldl tiltLineC s

/-- zeroCount is the all-zero event counter. -/
def zeroCount : Coord → Nat := fun _ => 0

/-- mergeTotal counts the merges performed by one tilt call: every merge
zeroes exactly one cell, so summing the zeroed-counter over all cells
counts the merges. -/
def mergeTotal (g : Grid) (f : Face) : Nat :=
  ∑ x : Coord, (tiltC (g, zeroCount, zeroCount) f).2.1 x

/-- headCompact states that along a line the non-zero values sit
contiguously from the head: once a cell is empty, every later cell of the
line is empty too. -/
def headCompact (g : Grid) : List Coord → Prop
  | [] => True
  | c :: rest => (g c = 0 → ∀ d ∈ rest, g d = 0) ∧ headCompact g rest

/-- noMerge states that no two adjacent cells of a line hold equal
non-zero values, so the merge loop of tilt can fire on no pair of a
head-compacted line. -/
def noMerge (g : Grid) : List Coord → Prop
  | [] => True
  | [_] => True
  | c :: d :: rest => (g c ≠ 0 → g d ≠ 0 → g c ≠ g d) ∧ noMerge g (d :: rest)

/-- validCell states that a cell value is 0 or a power of 2 at least 2. -/
def validCell (v : Int) : Prop := v = 0 ∨ ∃ k : Nat, 1 ≤ k ∧ v = 2 ^ k

/-- validGrid states that every cell of the grid holds a valid value. -/
def validGrid (g : Grid) : Prop := ∀ c, validCell (g c)

/-- faceOK states the structural sanity of a face: each line visits
pairwise distinct cells, and distinct lines are disjoint. -/
def faceOK (f : Face) : Prop :=
  (∀ l ∈ f, l.Nodup) ∧ f.Pairwise fun l1 l2 => ∀ c ∈ l1, c ∉ l2

instance (f : Face) : Decidable (faceOK f) :=
  decidable_of_iff ((∀ l ∈ f, l.Nodup) ∧ f.Pairwise fun l1 l2 => ∀ c ∈ l1, c ∉ l2) Iff.rfl

/-- headCompactDec decides headCompact by structural recursion. -/
def headCompactDec (g : Grid) : ∀ l : List Coord, Decidable (headCompact g l)
  | [] => isTrue trivial
  | c :: rest =>
    haveI : Decidable (headCompact g rest) := headCompactDec g rest
    decidable_of_iff ((g c = 0 → ∀ d ∈ rest, g d = 0) ∧ headCompact g rest)
      (by simp [headCompact])

instance (g : Grid) (l : List Coord) : Decidable (headCompact g l) := headCompactDec g l

/-- noMergeDec decides noMerge by structural recursion. -/
def noMergeDec (g : Grid) : ∀ l : List Coord, Decidable (noMerge g l)
  | [] => isTrue trivial
  | [_] => isTrue trivial
  | c :: d :: rest =>
    haveI : Decidable (noMerge g (d :: rest)) := noMergeDec g (d :: rest)
    decidable_of_iff ((g c ≠ 0 → g d ≠ 0 → g c ≠ g d) ∧ noMerge g (d :: rest))
      (by simp [noMerge])

instance (g : Grid) (l : List Coord) : Decidable (noMerge g l) := noMergeDec g l

/-- g2240 is a board whose first row is 2, 2, 4, 0 and whose other rows
are empty. -/
def g2240 : Grid := mkGrid [[2, 2, 4, 0], [0, 0, 0, 0], [0, 0, 0, 0], [0, 0, 0, 0]]

/-- g2222 is a board whose first row is 2, 2, 2, 2 and whose other rows
are empty. -/
def g2222 : Grid := mkGrid [[2, 2, 2, 2], [0, 0, 0, 0], [0, 0, 0, 0], [0, 0, 0, 0]]

/-- g2200 is a board whose first row is 2, 2, 0, 0 and whose other rows
are empty. -/
def g2200 : Grid := mkGrid [[2, 2, 0, 0], [0, 0, 0, 0], [0, 0, 0, 0], [0, 0, 0, 0]]

/-- g2020 is a board whose first row is 2, 0, 2, 0 and whose other rows
are empty. -/
def g2020 : Grid := mkGrid [[2, 0, 2, 0], [0, 0, 0, 0], [0, 0, 0, 0], [0, 0, 0, 0]]

/-- gNoop is a board on which a Left tilt can move nothing: every row is
head-compacted toward x = 0 and adjacent values differ. -/
def gNoop : Grid := mkGrid [[2, 4, 2, 4], [0, 0, 0, 0], [4, 2, 4, 2], [2, 0, 0, 0]]

/-- gInit1 is the board after the first placement of createModel with
random draw 0: a 2 at coordinate (0, 0). -/
def gInit1 : Grid := setCell zeroGrid ((0 : Fin 4), (0 : Fin 4)) 2

/-- gInit2 is the board after the second placement of createModel with
random draw 0: 2s at coordinates (0, 0) and (1, 0). -/
def gInit2 : Grid := setCell gInit1 ((1 : Fin 4), (0 : Fin 4)) 2

section BasicLemmas

variable {g g' : Grid} {c d x : Coord} {v : Int} {l rest : List Coord}

lemma setCell_same : setCell g c v c = v := by
  simp [setCell]

lemma setCell_ne (h : x ≠ c) : setCell g c v x = g x := by
  simp [setCell, Function.update_noteq h]

lemma firstNonzero_nil : firstNonzero g [] = none := rfl

lemma firstNonzero_cons_nz (h : g d ≠ 0) : firstNonzero g (d :: l) = some d := by
  simp [firstNonzero, h]

lemma firstNonzero_cons_z (h : g d = 0) : firstNonzero g (d :: l) = firstNonzero g l := by
  simp [firstNonzero, h]

lemma firstNonzero_eq_none : ∀ {l : List Coord}, firstNonzero g l = none ↔ ∀ c ∈ l, g c = 0 := by
  intro l
  induction l with
  | nil => simp [firstNonzero]
  | cons d rest ih =>
    by_cases h : g d = 0
    · rw [firstNonzero_cons_z h]
      simp [h, ih]
    · rw [firstNonzero_cons_nz h]
      constructor
      · intro hsome
        exact absurd hsome (by simp)
      · intro hall
        exact absurd (hall d (List.mem_cons_self d rest)) h

lemma firstNonzero_mem : ∀ {l : List Coord}, firstNonzero g l = some d → d ∈ l := by
  intro l
  induction l with
  | nil => intro h; simp [firstNonzero] at h
  | cons e rest ih =>
    intro h
    by_cases he : g e = 0
    · rw [firstNonzero_cons_z he] at h
      exact List.mem_cons_of_mem e (ih h)
    · rw [firstNonzero_cons_nz he] at h
      injection h with h
      exact h ▸ List.mem_cons_self e rest

lemma firstNonzero_nz : ∀ {l : List Coord}, firstNonzero g l = some d → g d ≠ 0 := by
  intro l
  induction l with
  | nil => intro h; simp [firstNonzero] at h
  | cons e rest ih =>
    intro h
    by_cases he : g e = 0
    · rw [firstNonzero_cons_z he] at h
      exact ih h
    · rw [firstNonzero_cons_nz he] at h
      injection h with h
      exact h ▸ he

lemma firstNonzero_congr : ∀ {l : List Coord}, (∀ c ∈ l, g c = g' c) →
    firstNonzero g l = firstNonzero g' l := by
  intro l
  induction l with
  | nil => intro _; rfl
  | cons e rest ih =>
    intro h
    have he : g e = g' e := h e (List.mem_cons_self e rest)
    have hrest : ∀ c ∈ rest, g c = g' c := fun c hc => h c (List.mem_cons_of_mem e hc)
    by_cases hz : g' e = 0
    · rw [firstNonzero_cons_z (he ▸ hz), firstNonzero_cons_z hz]
      exact ih hrest
    · rw [firstNonzero_cons_nz (he ▸ hz), firstNonzero_cons_nz hz]

lemma mergeStep_nil : mergeStep g [] = g := rfl

lemma mergeStep_cons_zero (h : g c = 0) :
    mergeStep g (c :: rest) = mergeStep g rest := by
  simp [mergeStep, h]

lemma mergeStep_cons_stop (h : g c ≠ 0) (hf : firstNonzero g rest = none) :
    mergeStep g (c :: rest) = g := by
  simp [mergeStep, h, hf]

lemma mergeStep_cons_found (h : g c ≠ 0) (hf : firstNonzero g rest = some d) :
    mergeStep g (c :: rest)
      = if g c = g d then
          mergeStep (setCell (setCell g c 0) d (2 * setCell g c 0 d)) rest
        else
          mergeStep g rest := by
  simp [mergeStep, h, hf]

lemma mergeStep_cons_merge (h : g c ≠ 0) (hf : firstNonzero g rest = some d)
    (he : g c = g d) :
    mergeStep g (c :: rest)
      = mergeStep (setCell (setCell g c 0) d (2 * setCell g c 0 d)) rest := by
  rw [mergeStep_cons_found h hf, if_pos he]

lemma mergeStep_cons_skip (h : g c ≠ 0) (hf : firstNonzero g rest = some d)
    (he : g c ≠ g d) :
    mergeStep g (c :: rest) = mergeStep g rest := by
  rw [mergeStep_cons_found h hf, if_neg he]

/-- mergedGrid abbreviates the grid written by one merge of tilt
(src/main.go:146-147): the a cell zeroed, then the b cell doubled. -/
lemma mergedGrid_at_cursor (hd : g d ≠ 0) :
    setCell (setCell g c 0) d (2 * setCell g c 0 d) c = 0 := by
  by_cases hcd : c = d
  · subst hcd
    rw [setCell_same, setCell_same]
    ring
  · rw [setCell_ne hcd, setCell_same]

lemma mergeStep_frame : ∀ (l : List Coord) (g : Grid), x ∉ l → mergeStep g l x = g x := by
  intro l
  induction l with
  | nil => intro g _; rfl
  | cons c rest ih =>
    intro g hx
    rw [List.mem_cons] at hx
    push_neg at hx
    obtain ⟨hxc, hxr⟩ := hx
    by_cases h0 : g c = 0
    · rw [mergeStep_cons_zero h0]
      exact ih g hxr
    · cases hfn : firstNonzero g rest with
      | none => rw [mergeStep_cons_stop h0 hfn]
      | some d =>
        have hxd : x ≠ d := fun hxd => hxr (hxd ▸ firstNonzero_mem hfn)
        by_cases he : g c = g d
        · rw [mergeStep_cons_merge h0 hfn he, ih _ hxr, setCell_ne hxd, setCell_ne hxc]
        · rw [mergeStep_cons_skip h0 hfn he]
          exact ih g hxr

lemma mergeStep_zero_pres : ∀ (l : List Coord) (g : Grid), g x = 0 →
    mergeStep g l x = 0 := by
  intro l
  induction l with
  | nil => intro g h; exact h
  | cons c rest ih =>
    intro g hx
    by_cases h0 : g c = 0
    · rw [mergeStep_cons_zero h0]
      exact ih g hx
    · cases hfn : firstNonzero g rest with
      | none => rw [mergeStep_cons_stop h0 hfn]; exact hx
      | some d =>
        by_cases he : g c = g d
        · rw [mergeStep_cons_merge h0 hfn he]
          refine ih _ ?_
          have hxc : x ≠ c := fun hxc => h0 (hxc ▸ hx)
          have hxd : x ≠ d := fun hxd => firstNonzero_nz hfn (hxd ▸ hx)
          rw [setCell_ne hxd, setCell_ne hxc]
          exact hx
        · rw [mergeStep_cons_skip h0 hfn he]
          exact ih g hx

lemma mergeStep_exists_zero : ∀ (l : List Coord) (g : Grid), mergeStep g l ≠ g →
    ∃ x, mergeStep g l x = 0 := by
  intro l
  induction l with
  | nil => intro g h; exact absurd rfl h
  | cons c rest ih =>
    intro g hne
    by_cases h0 : g c = 0
    · exact ⟨c, by rw [mergeStep_cons_zero h0]; exact mergeStep_zero_pres rest g h0⟩
    · cases hfn : firstNonzero g rest with
      | none => rw [mergeStep_cons_stop h0 hfn] at hne; exact absurd rfl hne
      | some d =>
        by_cases he : g c = g d
        · refine ⟨c, ?_⟩
          rw [mergeStep_cons_merge h0 hfn he]
          exact mergeStep_zero_pres rest _ (mergedGrid_at_cursor (firstNonzero_nz hfn))
        · rw [mergeStep_cons_skip h0 hfn he] at hne ⊢
          exact ih g hne

end BasicLemmas

section ShiftLemmas

variable {g g' : Grid} {c d x : Coord} {v : Int} {l rest : List Coord} {n : Nat}

lemma shiftStep_nz (h : g c ≠ 0) : shiftStep g c rest = g := by
  simp [shiftStep, h]

lemma shiftStep_none (h : g c = 0) (hf : firstNonzero g rest = none) :
    shiftStep g c rest = g := by
  simp [shiftStep, h, hf]

lemma shiftStep_swap (h : g c = 0) (hf : firstNonzero g rest = some d) :
    shiftStep g c rest = setCell (setCell g c (g d)) d (g c) := by
  simp [shiftStep, h, hf]

lemma shiftPass_fuel_zero : shiftPass g l 0 = g := by
  cases l <;> rfl

lemma shiftPass_nil : shiftPass g [] n = g := by
  cases n <;> rfl

lemma shiftPass_cons : shiftPass g (c :: rest) (n + 1) = shiftPass (shiftStep g c rest) rest n :=
  rfl

lemma shiftStep_frame (hc : x ≠ c) (hr : x ∉ rest) : shiftStep g c rest x = g x := by
  by_cases h : g c = 0
  · cases hf : firstNonzero g rest with
    | none => rw [shiftStep_none h hf]
    | some d =>
      have hxd : x ≠ d := fun hxd => hr (hxd ▸ firstNonzero_mem hf)
      rw [shiftStep_swap h hf, setCell_ne hxd, setCell_ne hc]
  · rw [shiftStep_nz h]

lemma shiftPass_frame : ∀ (l : List Coord) (g : Grid) (n : Nat), x ∉ l →
    shiftPass g l n x = g x := by
  intro l
  induction l with
  | nil => intro g n _; rw [shiftPass_nil]
  | cons c rest ih =>
    intro g n hx
    rw [List.mem_cons] at hx
    push_neg at hx
    obtain ⟨hxc, hxr⟩ := hx
    cases n with
    | zero => rw [shiftPass_fuel_zero]
    | succ m => rw [shiftPass_cons, ih _ m hxr, shiftStep_frame hxc hxr]

lemma shiftStep_exists_zero (h : ∃ z, g z = 0) : ∃ z, shiftStep g c rest z = 0 := by
  by_cases hc : g c = 0
  · cases hf : firstNonzero g rest with
    | none => rw [shiftStep_none hc hf]; exact h
    | some d =>
      refine ⟨d, ?_⟩
      rw [shiftStep_swap hc hf, setCell_same]
      exact hc
  · rw [shiftStep_nz hc]
    exact h

lemma shiftPass_exists_zero : ∀ (l : List Coord) (g : Grid) (n : Nat), (∃ z, g z = 0) →
    ∃ z, shiftPass g l n z = 0 := by
  intro l
  induction l with
  | nil => intro g n h; rw [shiftPass_nil]; exact h
  | cons c rest ih =>
    intro g n h
    cases n with
    | zero => rw [shiftPass_fuel_zero]; exact h
    | succ m => rw [shiftPass_cons]; exact ih _ m (shiftStep_exists_zero h)

lemma shiftStep_ne_imp (h : shiftStep g c rest ≠ g) : g c = 0 := by
  by_cases hc : g c = 0
  · exact hc
  · exact absurd (shiftStep_nz hc) h

lemma shiftPass_ne_imp : ∀ (l : List Coord) (g : Grid) (n : Nat), shiftPass g l n ≠ g →
    ∃ z, g z = 0 := by
  intro l
  induction l with
  | nil => intro g n h; rw [shiftPass_nil] at h; exact absurd rfl h
  | cons c rest ih =>
    intro g n h
    cases n with
    | zero => rw [shiftPass_fuel_zero] at h; exact absurd rfl h
    | succ m =>
      rw [shiftPass_cons] at h
      by_cases hst : shiftStep g c rest = g
      · rw [hst] at h
        exact ih g m h
      · exact ⟨c, shiftStep_ne_imp hst⟩

lemma shiftPass_of_allZero : ∀ (l : List Coord) (g : Grid) (n : Nat), (∀ z ∈ l, g z = 0) →
    shiftPass g l n = g := by
  intro l
  induction l with
  | nil => intro g n _; rw [shiftPass_nil]
  | cons c rest ih =>
    intro g n hall
    cases n with
    | zero => rw [shiftPass_fuel_zero]
    | succ m =>
      have hc : g c = 0 := hall c (List.mem_cons_self c rest)
      have hrest : ∀ z ∈ rest, g z = 0 := fun z hz => hall z (List.mem_cons_of_mem c hz)
      have hfn : firstNonzero g rest = none := firstNonzero_eq_none.mpr hrest
      rw [shiftPass_cons, shiftStep_none hc hfn]
      exact ih g m hrest

lemma shiftStep_post (h : shiftStep g c rest c = 0) : ∀ d ∈ rest, shiftStep g c rest d = 0 := by
  by_cases hc : g c = 0
  · cases hf : firstNonzero g rest with
    | none =>
      intro e he
      rw [shiftStep_none hc hf]
      exact firstNonzero_eq_none.mp hf e he
    | some d =>
      exfalso
      have hd : g d ≠ 0 := firstNonzero_nz hf
      have hcd : c ≠ d := fun hcd => hd (hcd ▸ hc)
      rw [shiftStep_swap hc hf, setCell_ne hcd, setCell_same] at h
      exact hd h
  · rw [shiftStep_nz hc] at h
    exact absurd h hc

lemma headCompact_nil : headCompact g [] := trivial

lemma headCompact_cons_iff :
    headCompact g (c :: rest) ↔ (g c = 0 → ∀ d ∈ rest, g d = 0) ∧ headCompact g rest := by
  simp [headCompact]

lemma headCompact_congr : ∀ (l : List Coord), (∀ x ∈ l, g x = g' x) →
    headCompact g l → headCompact g' l := by
  intro l
  induction l with
  | nil => intro _ _; exact trivial
  | cons c rest ih =>
    intro h hc
    rw [headCompact_cons_iff] at hc ⊢
    have hcc : g c = g' c := h c (List.mem_cons_self c rest)
    have hrest : ∀ x ∈ rest, g x = g' x := fun x hx => h x (List.mem_cons_of_mem c hx)
    refine ⟨fun hz d hd => ?_, ih hrest hc.2⟩
    rw [← hrest d hd]
    exact hc.1 (by rw [hcc]; exact hz) d hd

lemma shiftPass_headCompact : ∀ (l : List Coord) (g : Grid) (n : Nat), l.Nodup →
    l.length ≤ n + 1 → headCompact (shiftPass g l n) l := by
  intro l
  induction l with
  | nil => intro g n _ _; rw [shiftPass_nil]; exact headCompact_nil
  | cons c rest ih =>
    intro g n hnd hlen
    rw [List.nodup_cons] at hnd
    obtain ⟨hc_rest, hnd_rest⟩ := hnd
    cases n with
    | zero =>
      have : rest = [] := by
        cases rest with
        | nil => rfl
        | cons e t => simp at hlen
      subst this
      rw [shiftPass_fuel_zero, headCompact_cons_iff]
      exact ⟨fun _ d hd => absurd hd (List.not_mem_nil d), headCompact_nil⟩
    | succ m =>
      rw [shiftPass_cons]
      rw [headCompact_cons_iff]
      have hframe : shiftPass (shiftStep g c rest) rest m c = shiftStep g c rest c :=
        shiftPass_frame rest _ m hc_rest
      refine ⟨fun hz d hd => ?_, ih _ m hnd_rest (by simpa using Nat.le_of_succ_le_succ hlen)⟩
      rw [hframe] at hz
      have hall : ∀ e ∈ rest, shiftStep g c rest e = 0 := shiftStep_post hz
      rw [shiftPass_of_allZero rest _ m hall]
      exact hall d hd

end ShiftLemmas

section SumLemmas

variable {g g' : Grid} {c d x : Coord} {v : Int} {l rest : List Coord} {n : Nat}

lemma gridSum_setCell : gridSum (setCell g c v) = gridSum g + v - g c := by
  unfold gridSum setCell
  rw [Finset.sum_update_of_mem (Finset.mem_univ c),
    Finset.sum_eq_sum_diff_singleton_add (Finset.mem_univ c) g]
  ring

lemma mergeStep_sum : ∀ (l : List Coord) (g : Grid), l.Nodup →
    gridSum (mergeStep g l) = gridSum g := by
  intro l
  induction l with
  | nil => intro g _; rfl
  | cons c rest ih =>
    intro g hnd
    rw [List.nodup_cons] at hnd
    obtain ⟨hc_rest, hnd_rest⟩ := hnd
    by_cases h0 : g c = 0
    · rw [mergeStep_cons_zero h0]
      exact ih g hnd_rest
    · cases hfn : firstNonzero g rest with
      | none => rw [mergeStep_cons_stop h0 hfn]
      | some d =>
        have hdc : d ≠ c := fun hdc => hc_rest (hdc ▸ firstNonzero_mem hfn)
        by_cases he : g c = g d
        · rw [mergeStep_cons_merge h0 hfn he, ih _ hnd_rest]
          rw [gridSum_setCell, setCell_ne hdc, gridSum_setCell, he]
          ring
        · rw [mergeStep_cons_skip h0 hfn he]
          exact ih g hnd_rest

lemma shiftStep_sum (hcr : c ∉ rest) : gridSum (shiftStep g c rest) = gridSum g := by
  by_cases h : g c = 0
  · cases hf : firstNonzero g rest with
    | none => rw [shiftStep_none h hf]
    | some d =>
      have hdc : d ≠ c := fun hdc => hcr (hdc ▸ firstNonzero_mem hf)
      rw [shiftStep_swap h hf, gridSum_setCell, setCell_ne hdc, gridSum_setCell]
      ring
  · rw [shiftStep_nz h]

lemma shiftPass_sum : ∀ (l : List Coord) (g : Grid) (n : Nat), l.Nodup →
    gridSum (shiftPass g l n) = gridSum g := by
  intro l
  induction l with
  | nil => intro g n _; rw [shiftPass_nil]
  | cons c rest ih =>
    intro g n hnd
    rw [List.nodup_cons] at hnd
    cases n with
    | zero => rw [shiftPass_fuel_zero]
    | succ m =>
      rw [shiftPass_cons, ih _ m hnd.2]
      exact shiftStep_sum hnd.1

lemma tiltLine_sum (hnd : l.Nodup) : gridSum (tiltLine g l) = gridSum g := by
  rw [tiltLine, shiftPass_sum l _ 3 hnd, mergeStep_sum l g hnd]

lemma tilt_nil : tilt g [] = g := rfl

lemma tilt_cons {f : Face} : tilt g (l :: f) = tilt (tiltLine g l) f := rfl

lemma tilt_sum_aux : ∀ (f : Face) (g : Grid), (∀ l ∈ f, l.Nodup) →
    gridSum (tilt g f) = gridSum g := by
  intro f
  induction f with
  | nil => intro g _; rfl
  | cons l fs ih =>
    intro g h
    rw [tilt_cons, ih _ fun l2 h2 => h l2 (List.mem_cons_of_mem l h2)]
    exact tiltLine_sum (h l (List.mem_cons_self l fs))

end SumLemmas

section ValidLemmas

variable {g g' : Grid} {c d x : Coord} {v : Int} {l rest : List Coord} {n : Nat}

lemma validCell_zero : validCell 0 := Or.inl rfl

lemma validCell_two : validCell 2 := Or.inr ⟨1, le_refl 1, by norm_num⟩

lemma validCell_double (h : validCell v) (hv : v ≠ 0) : validCell (2 * v) := by
  rcases h with h | ⟨k, hk, hv2⟩
  · exact absurd h hv
  · exact Or.inr ⟨k + 1, Nat.le_add_left 1 k, by rw [hv2, pow_succ]; ring⟩

lemma setCell_valid (hg : validGrid g) (hv : validCell v) : validGrid (setCell g c v) := by
  intro x
  by_cases hx : x = c
  · subst hx; rw [setCell_same]; exact hv
  · rw [setCell_ne hx]; exact hg x

lemma mergeStep_valid : ∀ (l : List Coord) (g : Grid), validGrid g →
    validGrid (mergeStep g l) := by
  intro l
  induction l with
  | nil => intro g hg; exact hg
  | cons c rest ih =>
    intro g hg
    by_cases h0 : g c = 0
    · rw [mergeStep_cons_zero h0]; exact ih g hg
    · cases hfn : firstNonzero g rest with
      | none => rw [mergeStep_cons_stop h0 hfn]; exact hg
      | some d =>
        by_cases he : g c = g d
        · rw [mergeStep_cons_merge h0 hfn he]
          refine ih _ (setCell_valid (setCell_valid hg validCell_zero) ?_)
          by_cases hdc : d = c
          · subst hdc
            rw [setCell_same]
            exact (by norm_num : (2 : Int) * 0 = 0) ▸ validCell_zero
          · rw [setCell_ne hdc]
            exact validCell_double (hg d) (firstNonzero_nz hfn)
        · rw [mergeStep_cons_skip h0 hfn he]; exact ih g hg

lemma shiftStep_valid (hg : validGrid g) : validGrid (shiftStep g c rest) := by
  by_cases h : g c = 0
  · cases hf : firstNonzero g rest with
    | none => rw [shiftStep_none h hf]; exact hg
    | some d => rw [shiftStep_swap h hf]; exact setCell_valid (setCell_valid hg (hg d)) (hg c)
  · rw [shiftStep_nz h]; exact hg

lemma shiftPass_valid : ∀ (l : List Coord) (g : Grid) (n : Nat), validGrid g →
    validGrid (shiftPass g l n) := by
  intro l
  induction l with
  | nil => intro g n hg; rw [shiftPass_nil]; exact hg
  | cons c rest ih =>
    intro g n hg
    cases n with
    | zero => rw [shiftPass_fuel_zero]; exact hg
    | succ m => rw [shiftPass_cons]; exact ih _ m (shiftStep_valid hg)

lemma tiltLine_valid (hg : validGrid g) : validGrid (tiltLine g l) :=
  shiftPass_valid l _ 3 (mergeStep_valid l g hg)

lemma tilt_valid : ∀ (f : Face) (g : Grid), validGrid g → validGrid (tilt g f) := by
  intro f
  induction f with
  | nil => intro g hg; exact hg
  | cons l fs ih => intro g hg; rw [tilt_cons]; exact ih _ (tiltLine_valid hg)

end ValidLemmas

section CongrLocality

variable {g g' : Grid} {c d x : Coord} {v : Int} {l rest : List Coord} {n : Nat}

lemma mergeStep_congr : ∀ (l : List Coord) (g g' : Grid), (∀ y ∈ l, g y = g' y) →
    ∀ x ∈ l, mergeStep g l x = mergeStep g' l x := by
  intro l
  induction l with
  | nil => intro g g' _ x hx; exact absurd hx (List.not_mem_nil x)
  | cons c rest ih =>
    intro g g' h x hx
    have hc : g c = g' c := h c (List.mem_cons_self c rest)
    have hr : ∀ y ∈ rest, g y = g' y := fun y hy => h y (List.mem_cons_of_mem c hy)
    have key : ∀ (a a' : Grid), (∀ y ∈ c :: rest, a y = a' y) →
        mergeStep a rest x = mergeStep a' rest x := by
      intro a a' ha
      by_cases hxr : x ∈ rest
      · exact ih a a' (fun y hy => ha y (List.mem_cons_of_mem c hy)) x hxr
      · rcases List.mem_cons.mp hx with hxc | hxr2
        · subst hxc
          rw [mergeStep_frame rest a hxr, mergeStep_frame rest a' hxr]
          exact ha x (List.mem_cons_self x rest)
        · exact absurd hxr2 hxr
    by_cases h0 : g c = 0
    · have h0' : g' c = 0 := hc ▸ h0
      rw [mergeStep_cons_zero h0, mergeStep_cons_zero h0']
      exact key g g' h
    · have h0' : g' c ≠ 0 := hc ▸ h0
      have hfn_eq : firstNonzero g rest = firstNonzero g' rest := firstNonzero_congr hr
      cases hfn : firstNonzero g rest with
      | none =>
        rw [mergeStep_cons_stop h0 hfn, mergeStep_cons_stop h0' (hfn_eq ▸ hfn)]
        exact h x hx
      | some d =>
        have hfn' : firstNonzero g' rest = some d := hfn_eq ▸ hfn
        have hd : g d = g' d := hr d (firstNonzero_mem hfn)
        by_cases he : g c = g d
        · have he' : g' c = g' d := by rw [← hc, ← hd]; exact he
          rw [mergeStep_cons_merge h0 hfn he, mergeStep_cons_merge h0' hfn' he']
          refine key _ _ ?_
          intro y hy
          by_cases hyd : y = d
          · subst hyd
            rw [setCell_same, setCell_same]
            by_cases hdc : y = c
            · subst hdc; rw [setCell_same, setCell_same]
            · rw [setCell_ne hdc, setCell_ne hdc, hd]
          · rw [setCell_ne hyd, setCell_ne hyd]
            by_cases hyc : y = c
            · subst hyc; rw [setCell_same, setCell_same]
            · rw [setCell_ne hyc, setCell_ne hyc]
              exact h y hy
        · have he' : g' c ≠ g' d := by rw [← hc, ← hd]; exact he
          rw [mergeStep_cons_skip h0 hfn he, mergeStep_cons_skip h0' hfn' he']
          exact key g g' h

lemma shiftStep_congr (hc : g c = g' c) (hr : ∀ y ∈ rest, g y = g' y) :
    ∀ y, (y = c ∨ y ∈ rest) → shiftStep g c rest y = shiftStep g' c rest y := by
  intro y hy
  have hyv : g y = g' y := by
    rcases hy with rfl | hy
    · exact hc
    · exact hr y hy
  by_cases h0 : g c = 0
  · have h0' : g' c = 0 := hc ▸ h0
    have hfn_eq : firstNonzero g rest = firstNonzero g' rest := firstNonzero_congr hr
    cases hfn : firstNonzero g rest with
    | none => rw [shiftStep_none h0 hfn, shiftStep_none h0' (hfn_eq ▸ hfn)]; exact hyv
    | some d =>
      have hfn' : firstNonzero g' rest = some d := hfn_eq ▸ hfn
      have hd : g d = g' d := hr d (firstNonzero_mem hfn)
      rw [shiftStep_swap h0 hfn, shiftStep_swap h0' hfn']
      by_cases hyd : y = d
      · subst hyd; rw [setCell_same, setCell_same, hc]
      · rw [setCell_ne hyd, setCell_ne hyd]
        by_cases hyc : y = c
        · subst hyc; rw [setCell_same, setCell_same, hd]
        · rw [setCell_ne hyc, setCell_ne hyc]; exact hyv
  · have h0' : g' c ≠ 0 := hc ▸ h0
    rw [shiftStep_nz h0, shiftStep_nz h0']
    exact hyv

lemma shiftPass_congr : ∀ (l : List Coord) (g g' : Grid) (n : Nat),
    (∀ y ∈ l, g y = g' y) → ∀ x ∈ l, shiftPass g l n x = shiftPass g' l n x := by
  intro l
  induction l with
  | nil => intro g g' n _ x hx; exact absurd hx (List.not_mem_nil x)
  | cons c rest ih =>
    intro g g' n h x hx
    have hc : g c = g' c := h c (List.mem_cons_self c rest)
    have hr : ∀ y ∈ rest, g y = g' y := fun y hy => h y (List.mem_cons_of_mem c hy)
    cases n with
    | zero => rw [shiftPass_fuel_zero, shiftPass_fuel_zero]; exact h x hx
    | succ m =>
      rw [shiftPass_cons, shiftPass_cons]
      have hstep : ∀ y ∈ c :: rest, shiftStep g c rest y = shiftStep g' c rest y :=
        fun y hy => shiftStep_congr hc hr y (List.mem_cons.mp hy)
      by_cases hxr : x ∈ rest
      · exact ih _ _ m (fun y hy => hstep y (List.mem_cons_of_mem c hy)) x hxr
      · rcases List.mem_cons.mp hx with hxc | hxr2
        · subst hxc
          rw [shiftPass_frame rest _ m hxr, shiftPass_frame rest _ m hxr]
          exact hstep x (List.mem_cons_self x rest)
        · exact absurd hxr2 hxr

lemma tiltLine_frame (hx : x ∉ l) : tiltLine g l x = g x := by
  rw [tiltLine, shiftPass_frame l _ 3 hx, mergeStep_frame l g hx]

lemma tiltLine_congr (h : ∀ y ∈ l, g y = g' y) :
    ∀ x ∈ l, tiltLine g l x = tiltLine g' l x := by
  intro x hx
  rw [tiltLine, tiltLine]
  exact shiftPass_congr l _ _ 3 (mergeStep_congr l g g' h) x hx

lemma tilt_frame : ∀ (f : Face) (g : Grid), (∀ l ∈ f, x ∉ l) → tilt g f x = g x := by
  intro f
  induction f with
  | nil => intro g _; rfl
  | cons l fs ih =>
    intro g h
    rw [tilt_cons, ih _ fun l2 h2 => h l2 (List.mem_cons_of_mem l h2)]
    exact tiltLine_frame (h l (List.mem_cons_self l fs))

lemma tilt_locality : ∀ (f : Face) (g : Grid) (l : List Coord),
    (f.Pairwise fun l1 l2 => ∀ c ∈ l1, c ∉ l2) → l ∈ f →
    ∀ x ∈ l, tilt g f x = tiltLine g l x := by
  intro f
  induction f with
  | nil => intro g l _ hl; exact absurd hl (List.not_mem_nil l)
  | cons l1 fs ih =>
    intro g l hp hl x hx
    rw [List.pairwise_cons] at hp
    obtain ⟨hdisj, htail⟩ := hp
    rcases List.mem_cons.mp hl with rfl | hl2
    · rw [tilt_cons]
      rw [tilt_frame fs _ fun l2 h2 => fun hx2 => hdisj l2 h2 x hx hx2]
    · rw [tilt_cons, ih _ l htail hl2 x hx]
      refine tiltLine_congr (fun y hy => tiltLine_frame fun hyl1 => ?_) x hx
      exact hdisj l hl2 y hyl1 hy

end CongrLocality

section NoopLemmas

variable {g g' : Grid} {c d x : Coord} {v : Int} {l rest : List Coord} {n : Nat}

lemma noMerge_cons2_iff {rest : List Coord} :
    noMerge g (c :: d :: rest) ↔ (g c ≠ 0 → g d ≠ 0 → g c ≠ g d) ∧ noMerge g (d :: rest) := by
  simp [noMerge]

lemma mergeStep_of_allZero : ∀ (l : List Coord) (g : Grid), (∀ z ∈ l, g z = 0) →
    mergeStep g l = g := by
  intro l
  induction l with
  | nil => intro g _; rfl
  | cons c rest ih =>
    intro g h
    rw [mergeStep_cons_zero (h c (List.mem_cons_self c rest))]
    exact ih g fun z hz => h z (List.mem_cons_of_mem c hz)

lemma mergeStep_noop : ∀ (l : List Coord) (g : Grid), headCompact g l → noMerge g l →
    mergeStep g l = g := by
  intro l
  induction l with
  | nil => intro g _ _; rfl
  | cons c rest ih =>
    intro g hhc hnm
    rw [headCompact_cons_iff] at hhc
    obtain ⟨himp, htail⟩ := hhc
    by_cases h0 : g c = 0
    · rw [mergeStep_cons_zero h0]
      exact mergeStep_of_allZero rest g (himp h0)
    · cases rest with
      | nil => rw [mergeStep_cons_stop h0 firstNonzero_nil]
      | cons d rest2 =>
        by_cases hd : g d = 0
        · have hall2 : ∀ z ∈ rest2, g z = 0 := by
            rw [headCompact_cons_iff] at htail
            exact htail.1 hd
          have hfn : firstNonzero g (d :: rest2) = none := by
            rw [firstNonzero_cons_z hd]
            exact firstNonzero_eq_none.mpr hall2
          rw [mergeStep_cons_stop h0 hfn]
        · have hfn : firstNonzero g (d :: rest2) = some d := firstNonzero_cons_nz hd
          rw [noMerge_cons2_iff] at hnm
          rw [mergeStep_cons_skip h0 hfn (hnm.1 h0 hd)]
          exact ih g htail hnm.2

lemma shiftPass_noop : ∀ (l : List Coord) (g : Grid) (n : Nat), headCompact g l →
    shiftPass g l n = g := by
  intro l
  induction l with
  | nil => intro g n _; rw [shiftPass_nil]
  | cons c rest ih =>
    intro g n hhc
    rw [headCompact_cons_iff] at hhc
    obtain ⟨himp, htail⟩ := hhc
    cases n with
    | zero => rw [shiftPass_fuel_zero]
    | succ m =>
      have hstep : shiftStep g c rest = g := by
        by_cases h0 : g c = 0
        · exact shiftStep_none h0 (firstNonzero_eq_none.mpr (himp h0))
        · exact shiftStep_nz h0
      rw [shiftPass_cons, hstep]
      exact ih g m htail

lemma tiltLine_noop (hhc : headCompact g l) (hnm : noMerge g l) : tiltLine g l = g := by
  rw [tiltLine, mergeStep_noop l g hhc hnm, shiftPass_noop l g 3 hhc]

lemma tilt_noop : ∀ (f : Face) (g : Grid), (∀ l ∈ f, headCompact g l ∧ noMerge g l) →
    tilt g f = g := by
  intro f
  induction f with
  | nil => intro g _; rfl
  | cons l fs ih =>
    intro g h
    have hl := h l (List.mem_cons_self l fs)
    rw [tilt_cons, tiltLine_noop hl.1 hl.2]
    exact ih g fun l2 h2 => h l2 (List.mem_cons_of_mem l h2)

end NoopLemmas

section TiltCompactZero

variable {g g' : Grid} {c d x : Coord} {v : Int} {l rest : List Coord} {n : Nat}

lemma tilt_headCompact (f : Face) (g : Grid) (l : List Coord)
    (hp : f.Pairwise fun l1 l2 => ∀ c ∈ l1, c ∉ l2)
    (hnd : l.Nodup) (hlen : l.length ≤ 4) (hl : l ∈ f) :
    headCompact (tilt g f) l := by
  have hline : headCompact (tiltLine g l) l := by
    rw [tiltLine]
    exact shiftPass_headCompact l _ 3 hnd hlen
  exact headCompact_congr l (fun x hx => (tilt_locality f g l hp hl x hx).symm) hline

lemma tiltLine_exists_zero (h : ∃ z, g z = 0) : ∃ z, tiltLine g l z = 0 := by
  obtain ⟨z, hz⟩ := h
  rw [tiltLine]
  exact shiftPass_exists_zero l _ 3 ⟨z, mergeStep_zero_pres l g hz⟩

lemma tiltLine_ne_imp (h : tiltLine g l ≠ g) : ∃ z, tiltLine g l z = 0 := by
  by_cases hm : mergeStep g l = g
  · rw [tiltLine, hm] at h ⊢
    exact shiftPass_exists_zero l g 3 (shiftPass_ne_imp l g 3 h)
  · rw [tiltLine]
    exact shiftPass_exists_zero l _ 3 (mergeStep_exists_zero l g hm)

lemma tilt_exists_zero : ∀ (f : Face) (g : Grid), (∃ z, g z = 0) →
    ∃ z, tilt g f z = 0 := by
  intro f
  induction f with
  | nil => intro g h; exact h
  | cons l fs ih => intro g h; rw [tilt_cons]; exact ih _ (tiltLine_exists_zero h)

lemma tilt_ne_imp : ∀ (f : Face) (g : Grid), tilt g f ≠ g → ∃ z, tilt g f z = 0 := by
  intro f
  induction f with
  | nil => intro g h; exact absurd rfl h
  | cons l fs ih =>
    intro g h
    rw [tilt_cons] at h ⊢
    by_cases ht : tiltLine g l = g
    · rw [ht] at h ⊢
      exact ih g h
    · exact tilt_exists_zero fs _ (tiltLine_ne_imp ht)

end TiltCompactZero

section PlaceStepLemmas

variable {g g' g2 : Grid} {c d x : Coord} {v : Int} {l rest : List Coord} {n r : Nat}

lemma mem_emptyCells : ∀ c : Coord, c ∈ emptyCells g ↔ g c = 0 := by
  intro c
  obtain ⟨cx, cy⟩ := c
  simp [emptyCells, List.mem_flatMap, List.mem_filter, List.mem_map, List.mem_finRange]
  constructor
  · rintro ⟨y, x, hx, rfl, rfl⟩
    exact hx
  · intro h
    exact ⟨cy, cx, h, rfl, rfl⟩

lemma emptyCells_eq_nil_iff : emptyCells g = [] ↔ ∀ c : Coord, g c ≠ 0 := by
  rw [List.eq_nil_iff_forall_not_mem]
  constructor
  · intro h c hc
    exact h c ((mem_emptyCells c).mpr hc)
  · intro h c hc
    exact h c ((mem_emptyCells c).mp hc)

lemma place_eq_none_iff : place g r = none ↔ (emptyCells g).length = 0 := by
  by_cases h : (emptyCells g).length = 0
  · simp [place, h]
  · simp [place, h]

lemma place_some (h : (emptyCells g).length ≠ 0) :
    place g r = some (setCell g
      ((emptyCells g).get ⟨r % (emptyCells g).length, Nat.mod_lt r (Nat.pos_of_ne_zero h)⟩)
      2) := by
  simp [place, h]

lemma changed_self : changed g g = false := by
  simp [changed]

lemma changed_true_of_ne (h : g2 ≠ g) : changed g2 g = true := by
  simp only [changed, decide_eq_true_eq]
  exact Function.ne_iff.mp h

lemma step_of_unchanged {f : Face} (h : tilt g f = g) : step g f r = some g := by
  rw [step]
  simp only [h, changed_self]
  simp

lemma step_of_changed {f : Face} (h : tilt g f ≠ g) : step g f r = place (tilt g f) r := by
  rw [step]
  simp only [changed_true_of_ne h]
  simp

end PlaceStepLemmas

section CounterLemmas

variable {g g' : Grid} {zc dc : Coord → Nat} {c d x : Coord} {l rest : List Coord}

lemma bump_same {f : Coord → Nat} : bump f c c = f c + 1 := by
  simp [bump]

lemma bump_ne {f : Coord → Nat} (h : x ≠ c) : bump f c x = f x := by
  simp [bump, Function.update_noteq h]

lemma mergeStepC_nil : mergeStepC g zc dc [] = (g, zc, dc) := rfl

lemma mergeStepC_cons_zero (h : g c = 0) :
    mergeStepC g zc dc (c :: rest) = mergeStepC g zc dc rest := by
  simp [mergeStepC, h]

lemma mergeStepC_cons_stop (h : g c ≠ 0) (hf : firstNonzero g rest = none) :
    mergeStepC g zc dc (c :: rest) = (g, zc, dc) := by
  simp [mergeStepC, h, hf]

lemma mergeStepC_cons_found (h : g c ≠ 0) (hf : firstNonzero g rest = some d) :
    mergeStepC g zc dc (c :: rest)
      = if g c = g d then
          mergeStepC (setCell (setCell g c 0) d (2 * setCell g c 0 d))
            (bump zc c) (bump dc d) rest
        else
          mergeStepC g zc dc rest := by
  simp [mergeStepC, h, hf]

lemma mergeStepC_cons_merge (h : g c ≠ 0) (hf : firstNonzero g rest = some d)
    (he : g c = g d) :
    mergeStepC g zc dc (c :: rest)
      = mergeStepC (setCell (setCell g c 0) d (2 * setCell g c 0 d))
          (bump zc c) (bump dc d) rest := by
  rw [mergeStepC_cons_found h hf, if_pos he]

lemma mergeStepC_cons_skip (h : g c ≠ 0) (hf : firstNonzero g rest = some d)
    (he : g c ≠ g d) :
    mergeStepC g zc dc (c :: rest) = mergeStepC g zc dc rest := by
  rw [mergeStepC_cons_found h hf, if_neg he]

lemma mergeStepC_fst : ∀ (l : List Coord) (g : Grid) (zc dc : Coord → Nat),
    (mergeStepC g zc dc l).1 = mergeStep g l := by
  intro l
  induction l with
  | nil => intro g zc dc; rfl
  | cons c rest ih =>
    intro g zc dc
    by_cases h0 : g c = 0
    · rw [mergeStepC_cons_zero h0, mergeStep_cons_zero h0]; exact ih g zc dc
    · cases hfn : firstNonzero g rest with
      | none => rw [mergeStepC_cons_stop h0 hfn, mergeStep_cons_stop h0 hfn]
      | some d =>
        by_cases he : g c = g d
        · rw [mergeStepC_cons_merge h0 hfn he, mergeStep_cons_merge h0 hfn he]
          exact ih _ _ _
        · rw [mergeStepC_cons_skip h0 hfn he, mergeStep_cons_skip h0 hfn he]
          exact ih g zc dc

lemma mergeStepC_counters_frame : ∀ (l : List Coord) (g : Grid) (zc dc : Coord → Nat),
    x ∉ l →
    (mergeStepC g zc dc l).2.1 x = zc x ∧ (mergeStepC g zc dc l).2.2 x = dc x := by
  intro l
  induction l with
  | nil => intro g zc dc _; exact ⟨rfl, rfl⟩
  | cons c rest ih =>
    intro g zc dc hx
    rw [List.mem_cons] at hx
    push_neg at hx
    obtain ⟨hxc, hxr⟩ := hx
    by_cases h0 : g c = 0
    · rw [mergeStepC_cons_zero h0]; exact ih g zc dc hxr
    · cases hfn : firstNonzero g rest with
      | none => rw [mergeStepC_cons_stop h0 hfn]; exact ⟨rfl, rfl⟩
      | some d =>
        have hxd : x ≠ d := fun hxd => hxr (hxd ▸ firstNonzero_mem hfn)
        by_cases he : g c = g d
        · rw [mergeStepC_cons_merge h0 hfn he]
          obtain ⟨h1, h2⟩ := ih _ (bump zc c) (bump dc d) hxr
          exact ⟨by rw [h1, bump_ne hxc], by rw [h2, bump_ne hxd]⟩
        · rw [mergeStepC_cons_skip h0 hfn he]; exact ih g zc dc hxr

lemma mergeStepC_zc_le : ∀ (l : List Coord) (g : Grid) (zc dc : Coord → Nat), l.Nodup →
    ∀ x, (mergeStepC g zc dc l).2.1 x ≤ zc x + 1 := by
  intro l
  induction l with
  | nil => intro g zc dc _ x; exact Nat.le_succ (zc x)
  | cons c rest ih =>
    intro g zc dc hnd x
    rw [List.nodup_cons] at hnd
    obtain ⟨hcr, hndr⟩ := hnd
    by_cases h0 : g c = 0
    · rw [mergeStepC_cons_zero h0]; exact ih g zc dc hndr x
    · cases hfn : firstNonzero g rest with
      | none => rw [mergeStepC_cons_stop h0 hfn]; exact Nat.le_succ (zc x)
      | some d =>
        by_cases he : g c = g d
        · rw [mergeStepC_cons_merge h0 hfn he]
          by_cases hxc : x = c
          · subst hxc
            rw [(mergeStepC_counters_frame rest _ (bump zc x) (bump dc d) hcr).1, bump_same]
          · calc (mergeStepC _ (bump zc c) (bump dc d) rest).2.1 x
                ≤ bump zc c x + 1 := ih _ (bump zc c) (bump dc d) hndr x
              _ = zc x + 1 := by rw [bump_ne hxc]
        · rw [mergeStepC_cons_skip h0 hfn he]; exact ih g zc dc hndr x

lemma firstNonzero_after_merge : ∀ (rest : List Coord) (g : Grid) (c d : Coord),
    c ∉ rest → firstNonzero g rest = some d →
    firstNonzero (setCell (setCell g c 0) d (2 * setCell g c 0 d)) rest = some d := by
  intro rest
  induction rest with
  | nil => intro g c d _ hf; simp [firstNonzero] at hf
  | cons e r2 ih =>
    intro g c d hc hf
    rw [List.mem_cons] at hc
    push_neg at hc
    obtain ⟨hce, hcr2⟩ := hc
    by_cases hge : g e = 0
    · rw [firstNonzero_cons_z hge] at hf
      have hd_nz : g d ≠ 0 := firstNonzero_nz hf
      have hed : e ≠ d := fun hed => hd_nz (hed ▸ hge)
      have hec : e ≠ c := fun h => hce h.symm
      have hval : setCell (setCell g c 0) d (2 * setCell g c 0 d) e = 0 := by
        rw [setCell_ne hed, setCell_ne hec]
        exact hge
      rw [firstNonzero_cons_z hval]
      exact ih g c d hcr2 hf
    · rw [firstNonzero_cons_nz hge] at hf
      injection hf with hf
      subst hf
      have hdc : e ≠ c := fun h => hce h.symm
      have hval : setCell (setCell g c 0) e (2 * setCell g c 0 e) e = 2 * g e := by
        rw [setCell_same, setCell_ne hdc]
      have : setCell (setCell g c 0) e (2 * setCell g c 0 e) e ≠ 0 := by
        rw [hval]
        intro h2
        exact hge (by linarith [h2])
      rw [firstNonzero_cons_nz this]

lemma mergeStepC_dc : ∀ (l : List Coord) (g : Grid) (zc dc : Coord → Nat), l.Nodup →
    ∀ x, (mergeStepC g zc dc l).2.2 x ≤ dc x + 1 ∧
      (firstNonzero g l = some x → (mergeStepC g zc dc l).2.2 x = dc x) := by
  intro l
  induction l with
  | nil =>
    intro g zc dc _ x
    exact ⟨Nat.le_succ (dc x), fun h => by simp [firstNonzero] at h⟩
  | cons c rest ih =>
    intro g zc dc hnd x
    rw [List.nodup_cons] at hnd
    obtain ⟨hcr, hndr⟩ := hnd
    by_cases h0 : g c = 0
    · rw [mergeStepC_cons_zero h0, firstNonzero_cons_z h0]
      exact ih g zc dc hndr x
    · rw [firstNonzero_cons_nz h0]
      cases hfn : firstNonzero g rest with
      | none =>
        rw [mergeStepC_cons_stop h0 hfn]
        exact ⟨Nat.le_succ (dc x), fun _ => rfl⟩
      | some d =>
        have hdmem : d ∈ rest := firstNonzero_mem hfn
        have hdc : d ≠ c := fun h => hcr (h ▸ hdmem)
        by_cases he : g c = g d
        · rw [mergeStepC_cons_merge h0 hfn he]
          constructor
          · by_cases hxd : x = d
            · subst hxd
              have hfn2 : firstNonzero
                  (setCell (setCell g c 0) x (2 * setCell g c 0 x)) rest = some x :=
                firstNonzero_after_merge rest g c x hcr hfn
              rw [(ih _ (bump zc c) (bump dc x) hndr x).2 hfn2, bump_same]
            · calc (mergeStepC _ (bump zc c) (bump dc d) rest).2.2 x
                  ≤ bump dc d x + 1 := (ih _ (bump zc c) (bump dc d) hndr x).1
                _ = dc x + 1 := by rw [bump_ne hxd]
          · intro h
            injection h with h
            subst h
            rw [(mergeStepC_counters_frame rest _ (bump zc c) (bump dc d) hcr).2,
              bump_ne fun h2 : c = d => hdc h2.symm]
        · rw [mergeStepC_cons_skip h0 hfn he]
          refine ⟨(ih g zc dc hndr x).1, fun h => ?_⟩
          injection h with h
          subst h
          exact (mergeStepC_counters_frame rest g zc dc hcr).2

lemma tiltLineC_fst {s : CState} : (tiltLineC s l).1 = tiltLine s.1 l := by
  rw [tiltLineC, tiltLine, mergeStepC_fst]

lemma tiltLineC_counters {s : CState} : (tiltLineC s l).2 = (mergeStepC s.1 s.2.1 s.2.2 l).2 :=
  rfl

lemma faceOK_cons {fs : Face} (h : faceOK (l :: fs)) :
    l.Nodup ∧ (∀ l2 ∈ fs, ∀ c ∈ l, c ∉ l2) ∧ faceOK fs := by
  obtain ⟨hnd, hp⟩ := h
  rw [List.pairwise_cons] at hp
  exact ⟨hnd l (List.mem_cons_self l fs),
    fun l2 h2 c hc => hp.1 l2 h2 c hc,
    fun l2 h2 => hnd l2 (List.mem_cons_of_mem l h2), hp.2⟩

lemma tiltC_fst : ∀ (f : Face) (s : CState), (tiltC s f).1 = tilt s.1 f := by
  intro f
  induction f with
  | nil => intro s; rfl
  | cons l fs ih =>
    intro s
    show (tiltC (tiltLineC s l) fs).1 = tilt s.1 (l :: fs)
    rw [ih (tiltLineC s l), tilt_cons, tiltLineC_fst]

lemma tiltC_counters_frame : ∀ (f : Face) (s : CState), (∀ l ∈ f, x ∉ l) →
    (tiltC s f).2.1 x = s.2.1 x ∧ (tiltC s f).2.2 x = s.2.2 x := by
  intro f
  induction f with
  | nil => intro s _; exact ⟨rfl, rfl⟩
  | cons l fs ih =>
    intro s h
    have hxl : x ∉ l := h l (List.mem_cons_self l fs)
    have hrest : ∀ l2 ∈ fs, x ∉ l2 := fun l2 h2 => h l2 (List.mem_cons_of_mem l h2)
    obtain ⟨h1, h2⟩ := ih (tiltLineC s l) hrest
    obtain ⟨h3, h4⟩ := mergeStepC_counters_frame l s.1 s.2.1 s.2.2 hxl
    exact ⟨by rw [show tiltC s (l :: fs) = tiltC (tiltLineC s l) fs from rfl, h1,
        tiltLineC_counters, h3],
      by rw [show tiltC s (l :: fs) = tiltC (tiltLineC s l) fs from rfl, h2,
        tiltLineC_counters, h4]⟩

lemma tiltC_counters_le : ∀ (f : Face) (s : CState), faceOK f →
    ∀ x, (tiltC s f).2.1 x ≤ s.2.1 x + 1 ∧ (tiltC s f).2.2 x ≤ s.2.2 x + 1 := by
  intro f
  induction f with
  | nil => intro s _ x; exact ⟨Nat.le_succ _, Nat.le_succ _⟩
  | cons l fs ih =>
    intro s hOK x
    obtain ⟨hnd, hdisj, hOKrest⟩ := faceOK_cons hOK
    have hfold : tiltC s (l :: fs) = tiltC (tiltLineC s l) fs := rfl
    by_cases hx : x ∈ l
    · have hrest : ∀ l2 ∈ fs, x ∉ l2 := fun l2 h2 => hdisj l2 h2 x hx
      obtain ⟨h1, h2⟩ := tiltC_counters_frame fs (tiltLineC s l) hrest
      rw [hfold, h1, h2, tiltLineC_counters]
      exact ⟨mergeStepC_zc_le l s.1 s.2.1 s.2.2 hnd x,
        (mergeStepC_dc l s.1 s.2.1 s.2.2 hnd x).1⟩
    · obtain ⟨h3, h4⟩ := mergeStepC_counters_frame l s.1 s.2.1 s.2.2 hx
      obtain ⟨h1, h2⟩ := ih (tiltLineC s l) hOKrest x
      rw [hfold]
      constructor
      · calc (tiltC (tiltLineC s l) fs).2.1 x
            ≤ (tiltLineC s l).2.1 x + 1 := h1
          _ = s.2.1 x + 1 := by rw [tiltLineC_counters, h3]
      · calc (tiltC (tiltLineC s l) fs).2.2 x
            ≤ (tiltLineC s l).2.2 x + 1 := h2
          _ = s.2.2 x + 1 := by rw [tiltLineC_counters, h4]

end CounterLemmas

section QuadLemma

/-- tiltLine_allEq computes one tilt line on four pairwise distinct cells
all holding the same non-zero value v: the merge loop merges the first
pair onto the second cell and the third pair onto the fourth cell, and
the compaction loop then pulls the two 2v values to the head. -/
lemma tiltLine_allEq (g : Grid) (c0 c1 c2 c3 : Coord) (v : Int) (hv : v ≠ 0)
    (ne01 : c0 ≠ c1) (ne02 : c0 ≠ c2) (ne03 : c0 ≠ c3)
    (ne12 : c1 ≠ c2) (ne13 : c1 ≠ c3) (ne23 : c2 ≠ c3)
    (h0 : g c0 = v) (h1 : g c1 = v) (h2 : g c2 = v) (h3 : g c3 = v) :
    tiltLine g [c0, c1, c2, c3] c0 = 2 * v ∧ tiltLine g [c0, c1, c2, c3] c1 = 2 * v ∧
    tiltLine g [c0, c1, c2, c3] c2 = 0 ∧ tiltLine g [c0, c1, c2, c3] c3 = 0 := by
  have ne10 : c1 ≠ c0 := ne01.symm
  have ne20 : c2 ≠ c0 := ne02.symm
  have ne30 : c3 ≠ c0 := ne03.symm
  have ne21 : c2 ≠ c1 := ne12.symm
  have ne31 : c3 ≠ c1 := ne13.symm
  have ne32 : c3 ≠ c2 := ne23.symm
  have h2v : (2 : Int) * v ≠ 0 := mul_ne_zero two_ne_zero hv
  have hgc0 : g c0 ≠ 0 := by rw [h0]; exact hv
  have hgc1 : g c1 ≠ 0 := by rw [h1]; exact hv
  obtain ⟨gb, ea, gb0, gb1, gb2, gb3⟩ :
      ∃ gb : Grid, mergeStep g [c0, c1, c2, c3] = mergeStep gb [c1, c2, c3] ∧
        gb c0 = 0 ∧ gb c1 = 2 * v ∧ gb c2 = v ∧ gb c3 = v := by
    refine ⟨_, mergeStep_cons_merge hgc0 (firstNonzero_cons_nz hgc1) (by rw [h0, h1]),
      ?_, ?_, ?_, ?_⟩
    · rw [setCell_ne ne01, setCell_same]
    · rw [setCell_same, setCell_ne ne10, h1]
    · rw [setCell_ne ne21, setCell_ne ne20, h2]
    · rw [setCell_ne ne31, setCell_ne ne30, h3]
  have hb1 : gb c1 ≠ 0 := by rw [gb1]; exact h2v
  have hb2 : gb c2 ≠ 0 := by rw [gb2]; exact hv
  have hb3 : gb c3 ≠ 0 := by rw [gb3]; exact hv
  have eb : mergeStep gb [c1, c2, c3] = mergeStep gb [c2, c3] :=
    mergeStep_cons_skip hb1 (firstNonzero_cons_nz hb2)
      (by rw [gb1, gb2]; intro hh; exact hv (by linarith))
  obtain ⟨gc, ec, gc0, gc1, gc2, gc3⟩ :
      ∃ gc : Grid, mergeStep gb [c2, c3] = gc ∧
        gc c0 = 0 ∧ gc c1 = 2 * v ∧ gc c2 = 0 ∧ gc c3 = 2 * v := by
    have hmerge : mergeStep gb [c2, c3]
        = mergeStep (setCell (setCell gb c2 0) c3 (2 * setCell gb c2 0 c3)) [c3] :=
      mergeStep_cons_merge hb2 (firstNonzero_cons_nz hb3) (by rw [gb2, gb3])
    have h3v : setCell (setCell gb c2 0) c3 (2 * setCell gb c2 0 c3) c3 = 2 * v := by
      rw [setCell_same, setCell_ne ne32, gb3]
    refine ⟨setCell (setCell gb c2 0) c3 (2 * setCell gb c2 0 c3), ?_, ?_, ?_, ?_, ?_⟩
    · rw [hmerge]
      exact mergeStep_cons_stop (by rw [h3v]; exact h2v) firstNonzero_nil
    · rw [setCell_ne ne03, setCell_ne ne02, gb0]
    · rw [setCell_ne ne13, setCell_ne ne12, gb1]
    · rw [setCell_ne ne23, setCell_same]
    · exact h3v
  have em : mergeStep g [c0, c1, c2, c3] = gc := by rw [ea, eb, ec]
  have hc1nz : gc c1 ≠ 0 := by rw [gc1]; exact h2v
  obtain ⟨ge, es1, ge0, ge1, ge2, ge3⟩ :
      ∃ ge : Grid, shiftStep gc c0 [c1, c2, c3] = ge ∧
        ge c0 = 2 * v ∧ ge c1 = 0 ∧ ge c2 = 0 ∧ ge c3 = 2 * v := by
    refine ⟨_, shiftStep_swap gc0 (firstNonzero_cons_nz hc1nz), ?_, ?_, ?_, ?_⟩
    · rw [setCell_ne ne01, setCell_same, gc1]
    · rw [setCell_same, gc0]
    · rw [setCell_ne ne21, setCell_ne ne20, gc2]
    · rw [setCell_ne ne31, setCell_ne ne30, gc3]
  have hge3 : ge c3 ≠ 0 := by rw [ge3]; exact h2v
  obtain ⟨gf, es2, gf0, gf1, gf2, gf3⟩ :
      ∃ gf : Grid, shiftStep ge c1 [c2, c3] = gf ∧
        gf c0 = 2 * v ∧ gf c1 = 2 * v ∧ gf c2 = 0 ∧ gf c3 = 0 := by
    have hfn : firstNonzero ge [c2, c3] = some c3 := by
      rw [firstNonzero_cons_z ge2, firstNonzero_cons_nz hge3]
    refine ⟨_, shiftStep_swap ge1 hfn, ?_, ?_, ?_, ?_⟩
    · rw [setCell_ne ne03, setCell_ne ne01, ge0]
    · rw [setCell_ne ne13, setCell_same, ge3]
    · rw [setCell_ne ne23, setCell_ne ne21, ge2]
    · rw [setCell_same, ge1]
  have es3 : shiftStep gf c2 [c3] = gf :=
    shiftStep_none gf2 (by rw [firstNonzero_cons_z gf3]; rfl)
  have esp : shiftPass gc [c0, c1, c2, c3] 3 = gf := by
    rw [shiftPass_cons, es1, shiftPass_cons, es2, shiftPass_cons, es3, shiftPass_fuel_zero]
  have final : tiltLine g [c0, c1, c2, c3] = gf := by
    rw [tiltLine, em, esp]
  exact ⟨by rw [final]; exact gf0, by rw [final]; exact gf1,
    by rw [final]; exact gf2, by rw [final]; exact gf3⟩

end QuadLemma

section FaceFacts

lemma boardFaces_faceOK : ∀ f ∈ boardFaces, faceOK f := by decide

lemma boardFaces_lines : ∀ f ∈ boardFaces, ∀ l ∈ f, l.length = 4 ∧ l.Nodup := by decide

lemma list_length_four {α : Type} : ∀ (l : List α), l.length = 4 →
    ∃ a b c d, l = [a, b, c, d] := by
  intro l h
  rcases l with _ | ⟨a, l⟩
  · simp at h
  rcases l with _ | ⟨b, l⟩
  · simp at h
  rcases l with _ | ⟨c, l⟩
  · simp at h
  rcases l with _ | ⟨d, l⟩
  · simp at h
  rcases l with _ | ⟨e, l⟩
  · exact ⟨a, b, c, d, rfl⟩
  · simp at h

lemma nodup_four {α : Type} {a b c d : α} (h : List.Nodup [a, b, c, d]) :
    a ≠ b ∧ a ≠ c ∧ a ≠ d ∧ b ≠ c ∧ b ≠ d ∧ c ≠ d := by
  simp [List.nodup_cons, List.mem_cons] at h
  tauto

lemma place_valid {g g2 : Grid} {r : Nat} (h : place g r = some g2) (hg : validGrid g) :
    validGrid g2 := by
  by_cases hl : (emptyCells g).length = 0
  · rw [place_eq_none_iff.mpr hl] at h
    exact absurd h (by simp)
  · rw [place_some hl] at h
    injection h with h
    subst h
    exact setCell_valid hg validCell_two

lemma step_valid {g g2 : Grid} {f : Face} {r : Nat} (h : step g f r = some g2)
    (hg : validGrid g) : validGrid g2 := by
  by_cases hc : tilt g f = g
  · rw [step_of_unchanged hc] at h
    injection h with h
    subst h
    exact hg
  · rw [step_of_changed hc] at h
    exact place_valid h (tilt_valid f g hg)

end FaceFacts

/-- C1, counterexample: on the row 2, 2, 4, 0 tilted Left, the cell (1, 0)
participates in two merges of the same tilt call: it is doubled to 4 by
the first merge and then zeroed by the second merge, refuting the claim
that each cell participates in at most one merge and that a value
produced by a merge is never merged again. -/
theorem mergePass_double_merge_cex :
    (tiltC (g2240, zeroCount, zeroCount) leftFace).2.1 ((1 : Fin 4), (0 : Fin 4))
        + (tiltC (g2240, zeroCount, zeroCount) leftFace).2.2 ((1 : Fin 4), (0 : Fin 4)) = 2 ∧
    ¬((tiltC (g2240, zeroCount, zeroCount) leftFace).2.1 ((1 : Fin 4), (0 : Fin 4))
        + (tiltC (g2240, zeroCount, zeroCount) leftFace).2.2 ((1 : Fin 4), (0 : Fin 4)) ≤ 1) ∧
    tilt g2240 leftFace ((0 : Fin 4), (0 : Fin 4)) = 8 := by
  decide

/-- C1 (amended): within one tilt call over a structurally sound face,
every cell is zeroed at most once and doubled at most once by the merge
loop; a cell can however take part in two merges, once doubled and then
once zeroed, so a value produced by a merge can merge again. -/
theorem mergePass_cell_participation :
    ∀ (g : Grid) (f : Face), faceOK f → ∀ x : Coord,
    (tiltC (g, zeroCount, zeroCount) f).2.1 x ≤ 1 ∧
    (tiltC (g, zeroCount, zeroCount) f).2.2 x ≤ 1 := by
  intro g f hOK x
  have h := tiltC_counters_le f (g, zeroCount, zeroCount) hOK x
  simpa [zeroCount] using h

/-- C1, witness: the participation bounds instantiated on a concrete
board, face and cell. -/
theorem mergePass_cell_participation_witness :
    (tiltC (g2240, zeroCount, zeroCount) leftFace).2.1 ((0 : Fin 4), (0 : Fin 4)) ≤ 1 ∧
    (tiltC (g2240, zeroCount, zeroCount) leftFace).2.2 ((0 : Fin 4), (0 : Fin 4)) ≤ 1 :=
  mergePass_cell_participation g2240 leftFace (by decide) ((0 : Fin 4), (0 : Fin 4))

/-- C2, counterexample: a line of four equal 2s tilted Left ends as
4, 4, 0, 0 - both adjacent pairs merge and two non-zero cells remain,
not three as claimed. -/
theorem fourEqual_line_cex :
    (2 : Int) = 2 ^ 1 ∧
    tilt g2222 leftFace = mkGrid [[4, 4, 0, 0], [0, 0, 0, 0], [0, 0, 0, 0], [0, 0, 0, 0]] ∧
    ¬((([((0 : Fin 4), (0 : Fin 4)), ((1 : Fin 4), (0 : Fin 4)),
        ((2 : Fin 4), (0 : Fin 4)), ((3 : Fin 4), (0 : Fin 4))] : List Coord).filter
          fun c => decide (tilt g2222 leftFace c ≠ 0)).length = 3) := by
  refine ⟨by norm_num, by decide, by decide⟩

/-- C2 (amended): for every power-of-2 value v >= 2, applying a direction
to a line whose four cells all hold v merges both adjacent pairs (first
onto second cell, third onto fourth), so after compaction the line holds
2v, 2v, 0, 0: exactly two non-zero cells. -/
theorem fourEqual_line_two_merges :
    ∀ (v : Int), (∃ k : Nat, 1 ≤ k ∧ v = 2 ^ k) →
    ∀ f ∈ boardFaces, ∀ l ∈ f, ∀ g : Grid, (∀ c ∈ l, g c = v) →
    ∃ c0 c1 c2 c3, l = [c0, c1, c2, c3] ∧
      tilt g f c0 = 2 * v ∧ tilt g f c1 = 2 * v ∧
      tilt g f c2 = 0 ∧ tilt g f c3 = 0 ∧
      (l.filter fun c => decide (tilt g f c ≠ 0)).length = 2 := by
  intro v hv f hf l hl g hall
  have hvne : v ≠ 0 := by
    obtain ⟨k, hk, rfl⟩ := hv
    exact pow_ne_zero k two_ne_zero
  obtain ⟨hlen, hnd⟩ := boardFaces_lines f hf l hl
  obtain ⟨c0, c1, c2, c3, rfl⟩ := list_length_four l hlen
  obtain ⟨ne01, ne02, ne03, ne12, ne13, ne23⟩ := nodup_four hnd
  have h0 : g c0 = v := hall c0 (by simp)
  have h1 : g c1 = v := hall c1 (by simp)
  have h2 : g c2 = v := hall c2 (by simp)
  have h3 : g c3 = v := hall c3 (by simp)
  obtain ⟨t0, t1, t2, t3⟩ :=
    tiltLine_allEq g c0 c1 c2 c3 v hvne ne01 ne02 ne03 ne12 ne13 ne23 h0 h1 h2 h3
  have hOK := boardFaces_faceOK f hf
  have loc : ∀ x ∈ [c0, c1, c2, c3], tilt g f x = tiltLine g [c0, c1, c2, c3] x :=
    fun x hx => tilt_locality f g _ hOK.2 hl x hx
  have v0 : tilt g f c0 = 2 * v := by rw [loc c0 (by simp), t0]
  have v1 : tilt g f c1 = 2 * v := by rw [loc c1 (by simp), t1]
  have v2 : tilt g f c2 = 0 := by rw [loc c2 (by simp), t2]
  have v3 : tilt g f c3 = 0 := by rw [loc c3 (by simp), t3]
  have h2v : (2 : Int) * v ≠ 0 := mul_ne_zero two_ne_zero hvne
  refine ⟨c0, c1, c2, c3, rfl, v0, v1, v2, v3, ?_⟩
  simp [List.filter_cons, v0, v1, v2, v3, h2v]

/-- C2, witness: the amended statement instantiated at v = 2 on the first
Left line of a board of four 2s. -/
theorem fourEqual_line_two_merges_witness :
    ∃ c0 c1 c2 c3,
      ([((0 : Fin 4), (0 : Fin 4)), ((1 : Fin 4), (0 : Fin 4)),
        ((2 : Fin 4), (0 : Fin 4)), ((3 : Fin 4), (0 : Fin 4))] : List Coord)
        = [c0, c1, c2, c3] ∧
      tilt g2222 leftFace c0 = 2 * 2 ∧ tilt g2222 leftFace c1 = 2 * 2 ∧
      tilt g2222 leftFace c2 = 0 ∧ tilt g2222 leftFace c3 = 0 ∧
      (([((0 : Fin 4), (0 : Fin 4)), ((1 : Fin 4), (0 : Fin 4)),
        ((2 : Fin 4), (0 : Fin 4)), ((3 : Fin 4), (0 : Fin 4))] : List Coord).filter
          fun c => decide (tilt g2222 leftFace c ≠ 0)).length = 2 :=
  fourEqual_line_two_merges 2 ⟨1, le_refl 1, by norm_num⟩ leftFace (by decide) _
    (by decide) g2222 (by decide)

/-- C3, counterexample: the row 2, 2, 4, 0 tilted Left does not become
4, 4, 0, 0; the head cell ends holding 8, produced by a chained merge. -/
theorem row2240_left_cex :
    tilt g2240 leftFace
        ≠ mkGrid [[4, 4, 0, 0], [0, 0, 0, 0], [0, 0, 0, 0], [0, 0, 0, 0]] ∧
    tilt g2240 leftFace ((0 : Fin 4), (0 : Fin 4)) = 8 := by
  decide

/-- C3 (amended): applying Left to a grid row holding 2, 2, 4, 0 yields
the row 8, 0, 0, 0: the two 2s merge into a 4 on the second cell, that 4
immediately merges with the adjacent 4 into an 8, and the 8 slides to
the head. -/
theorem row2240_left_result :
    tilt g2240 leftFace = mkGrid [[8, 0, 0, 0], [0, 0, 0, 0], [0, 0, 0, 0], [0, 0, 0, 0]] := by
  decide

/-- C4, counterexample: on the row 2, 2, 0, 0 tilted Left, one merge is
performed and the total sum stays 4; the claimed total of pre-pass sum
plus merges times merged value (4 + 1 * 2, or 4 + 1 * 4) does not hold. -/
theorem tilt_sum_cex :
    gridSum g2200 = 4 ∧ gridSum (tilt g2200 leftFace) = 4 ∧
    mergeTotal g2200 leftFace = 1 ∧
    ¬(gridSum (tilt g2200 leftFace)
        = gridSum g2200 + (mergeTotal g2200 leftFace : Int) * 2) ∧
    ¬(gridSum (tilt g2200 leftFace)
        = gridSum g2200 + (mergeTotal g2200 leftFace : Int) * 4) := by
  decide

/-- C4 (amended): the merge pass conserves the total of all cell values
exactly (each merge zeroes one cell of value v and doubles the other from
v to 2v), and so does compaction; the sum after applyDirection equals the
pre-pass sum, increasing only via spawning. -/
theorem tilt_sum_conservation :
    ∀ (g : Grid) (f : Face), (∀ l ∈ f, l.Nodup) →
    (∀ l ∈ f, gridSum (mergeStep g l) = gridSum g) ∧
    gridSum (tilt g f) = gridSum g := by
  intro g f h
  exact ⟨fun l hl => mergeStep_sum l g (h l hl), tilt_sum_aux f g h⟩

/-- C4, witness: sum conservation instantiated on a concrete board and
the Left face. -/
theorem tilt_sum_conservation_witness :
    (∀ l ∈ leftFace, gridSum (mergeStep g2200 l) = gridSum g2200) ∧
    gridSum (tilt g2200 leftFace) = gridSum g2200 :=
  tilt_sum_conservation g2200 leftFace (by decide)

/-- C5: after a tilt along any of the four board faces, every line of that
face is head-compacted: once a cell of the line is empty, every cell
after it in the line is empty too. -/
theorem tilt_compaction_complete :
    ∀ (g : Grid), ∀ f ∈ boardFaces, ∀ l ∈ f, headCompact (tilt g f) l := by
  intro g f hf l hl
  obtain ⟨hlen, hnd⟩ := boardFaces_lines f hf l hl
  exact tilt_headCompact f g l (boardFaces_faceOK f hf).2 hnd (le_of_eq hlen) hl

/-- C5, witness: compaction completeness instantiated on a concrete board
and the first Left line. -/
theorem tilt_compaction_complete_witness :
    headCompact (tilt g2240 leftFace)
      [((0 : Fin 4), (0 : Fin 4)), ((1 : Fin 4), (0 : Fin 4)),
       ((2 : Fin 4), (0 : Fin 4)), ((3 : Fin 4), (0 : Fin 4))] :=
  tilt_compaction_complete g2240 leftFace (by decide) _ (by decide)

/-- C6: whenever a tilt changes the grid, the tilted grid has an empty
cell, so the placement that step performs after an effective move never
runs out of options and its failing branch is unreachable. -/
theorem effective_tilt_leaves_empty :
    ∀ (g : Grid) (f : Face) (r : Nat), tilt g f ≠ g →
    (∃ c, tilt g f c = 0) ∧ step g f r ≠ none := by
  intro g f r h
  have hz := tilt_ne_imp f g h
  refine ⟨hz, ?_⟩
  rw [step_of_changed h]
  intro hnone
  rw [place_eq_none_iff, List.length_eq_zero, emptyCells_eq_nil_iff] at hnone
  obtain ⟨c, hc⟩ := hz
  exact hnone c hc

/-- C6, witness: the guarantee instantiated on a board the Left tilt
changes. -/
theorem effective_tilt_leaves_empty_witness :
    (∃ c, tilt g2020 leftFace c = 0) ∧ step g2020 leftFace 0 ≠ none :=
  effective_tilt_leaves_empty g2020 leftFace 0 (by decide)

/-- C7: on a grid already compacted toward a face with no adjacent equal
values on any line, the tilt leaves every cell unchanged, changed reports
false, and step returns the grid with no tile spawned. -/
theorem noop_direction_idempotent :
    ∀ (g : Grid) (f : Face) (r : Nat), (∀ l ∈ f, headCompact g l ∧ noMerge g l) →
    tilt g f = g ∧ changed (tilt g f) g = false ∧ step g f r = some g := by
  intro g f r h
  have ht := tilt_noop f g h
  exact ⟨ht, by rw [ht]; exact changed_self, step_of_unchanged ht⟩

/-- C7, witness: the no-op guarantee instantiated on a Left-compacted
board. -/
theorem noop_direction_idempotent_witness :
    tilt gNoop leftFace = gNoop ∧ changed (tilt gNoop leftFace) gNoop = false ∧
    step gNoop leftFace 0 = some gNoop :=
  noop_direction_idempotent gNoop leftFace 0 (by decide)

/-- C8: every grid reachable from the initial board (all zeros plus two
placed 2s) through any sequence of steps holds only cells that are 0 or a
power of 2 at least 2. -/
theorem reach_validGrid : ∀ g : Grid, Reach g → validGrid g := by
  intro g hg
  induction hg with
  | init r1 r2 g1 g2 h1 h2 =>
    exact place_valid h2 (place_valid h1 fun c => validCell_zero)
  | move g g2 f r hf hr h ih =>
    exact step_valid h ih

/-- C8, witness: the invariant instantiated on the board reached by the
two initial placements with random draws 0 and 0. -/
theorem reach_validGrid_witness : validGrid gInit2 :=
  reach_validGrid gInit2 (Reach.init 0 0 gInit1 gInit2 (by decide) (by decide))

/-- C9: on a grid with an empty cell, place writes a 2 into exactly one
cell, that cell was empty before, it is chosen from the row-major list of
empty cells at the index drawn modulo the list length, and every other
cell keeps its value. -/
theorem place_spawn_spec :
    ∀ (g : Grid) (r : Nat), (∃ c, g c = 0) →
    ∃ c : Coord, g c = 0 ∧ c ∈ emptyCells g ∧
      (∃ i : Fin (emptyCells g).length,
        i.val = r % (emptyCells g).length ∧ c = (emptyCells g).get i) ∧
      place g r = some (setCell g c 2) ∧
      setCell g c 2 c = 2 ∧ (∀ d, d ≠ c → setCell g c 2 d = g d) := by
  intro g r h
  have hne : (emptyCells g).length ≠ 0 := by
    intro h0
    rw [List.length_eq_zero, emptyCells_eq_nil_iff] at h0
    obtain ⟨c, hc⟩ := h
    exact h0 c hc
  refine ⟨(emptyCells g).get ⟨r % (emptyCells g).length,
      Nat.mod_lt r (Nat.pos_of_ne_zero hne)⟩, ?_, ?_, ?_, place_some hne,
      setCell_same, fun d hd => setCell_ne hd⟩
  · exact (mem_emptyCells _).mp (List.get_mem (emptyCells g) _ _)
  · exact List.get_mem (emptyCells g) _ _
  · exact ⟨⟨r % (emptyCells g).length, Nat.mod_lt r (Nat.pos_of_ne_zero hne)⟩, rfl, rfl⟩

/-- C9, witness: the spawn contract instantiated on a concrete grid with
random draw 0. -/
theorem place_spawn_spec_witness :
    ∃ c : Coord, g2240 c = 0 ∧ c ∈ emptyCells g2240 ∧
      (∃ i : Fin (emptyCells g2240).length,
        i.val = 0 % (emptyCells g2240).length ∧ c = (emptyCells g2240).get i) ∧
      place g2240 0 = some (setCell g2240 c 2) ∧
      setCell g2240 c 2 c = 2 ∧ (∀ d, d ≠ c → setCell g2240 c 2 d = g2240 d) :=
  place_spawn_spec g2240 0 ⟨((3 : Fin 4), (0 : Fin 4)), by decide⟩

/-- C10: place fails exactly on a full grid: its embedded result is none
(the run on which rand.Intn receives 0 and raises) precisely when no cell
is zero, and on any grid with an empty cell it returns a grid. -/
theorem place_none_iff_full :
    ∀ (g : Grid) (r : Nat), place g r = none ↔ ∀ c : Coord, g c ≠ 0 := by
  intro g r
  rw [place_eq_none_iff, List.length_eq_zero, emptyCells_eq_nil_iff]

example :
    tilt (mkGrid [[2, 2, 4, 0], [0, 0, 0, 0], [0, 0, 0, 0], [0, 0, 0, 0]]) leftFace
      = mkGrid [[8, 0, 0, 0], [0, 0, 0, 0], [0, 0, 0, 0], [0, 0, 0, 0]] := by decide

example :
    tilt (mkGrid [[2, 2, 2, 2], [0, 0, 0, 0], [0, 0, 0, 0], [0, 0, 0, 0]]) leftFace
      = mkGrid [[4, 4, 0, 0], [0, 0, 0, 0], [0, 0, 0, 0], [0, 0, 0, 0]] := by decide

example :
    tilt (mkGrid [[4, 2, 2, 4], [0, 0, 0, 0], [0, 0, 0, 0], [0, 0, 0, 0]]) leftFace
      = mkGrid [[4, 8, 0, 0], [0, 0, 0, 0], [0, 0, 0, 0], [0, 0, 0, 0]] := by decide

example :
    tilt (mkGrid [[2, 0, 0, 2], [0, 0, 0, 0], [0, 0, 0, 0], [0, 0, 0, 0]]) leftFace
      = mkGrid [[4, 0, 0, 0], [0, 0, 0, 0], [0, 0, 0, 0], [0, 0, 0, 0]] := by decide

example :
    place zeroGrid 0 = some (setCell zeroGrid ((0 : Fin 4), (0 : Fin 4)) 2) := by decide

example : faceOK leftFace := by decide

example : headCompact gNoop (leftFace.getD 0 []) ∧ noMerge gNoop (leftFace.getD 0 []) := by
  decide

example : place gInit1 0 = some gInit2 := by decide

end Game2048
